import Mathlib

/-!
Verification of the perfetto-recorder event-recording core and trace builder.

The development shallow-embeds src/src/lib.rs: the per-thread event log and its
recording API, the argument encoding and decoding, and the trace builder with
its interning tables and packet emission. Rust machine integers are modelled as
Nat and Int with explicit reduction modulo 2 to the power of the width where the
source truncates; 64-bit float payloads are carried as uninterpreted bit patterns (the
source only copies them); text is modelled as its byte sequence. The wire-format
collaborator (the generated schema module, not present under src/) is modelled
from the spec as plain record types. Nondeterministic inputs (the thread-local
random number generator) are modelled as explicit parameters supplying the drawn
values.
-/

namespace PerfettoRecorder

/-- A byte of a UTF-8 text value. -/
abbrev Byte := Nat

/-- Call-site metadata, src/src/lib.rs struct SourceInfo: one static descriptor
per instrumented call site. -/
structure SourceInfo where
  name : String
  file : String
  line : Nat
  arg_names : List String
deriving DecidableEq

/-- src/src/lib.rs const STR_PART_LEN: the maximum number of bytes carried by
one StrPart event. -/
def STR_PART_LEN : Nat := 15

/-- src/src/lib.rs enum Event: the per-thread log record. Timestamps are
nanosecond instants (Nat); F64 carries an uninterpreted bit pattern; String carries the
bytes of an owned string; StrPart and StrEnd carry fixed 15-byte buffers
(length-15 byte lists). -/
inductive Event where
  | StartSpan (si : SourceInfo)
  | EndSpan (si : SourceInfo)
  | Timestamp (t : Nat)
  | Bool (b : Bool)
  | U64 (v : Nat)
  | I64 (v : Int)
  | F64 (bits : Nat)
  | String (s : List Byte)
  | StrPart (bytes : List Byte)
  | StrEnd (len : Nat) (bytes : List Byte)
deriving DecidableEq

/-- src/src/lib.rs decoded argument values, the debug-annotation value union of
the wire schema as produced by convert_next_arg. -/
inductive Value where
  | BoolValue (b : Bool)
  | UintValue (v : Nat)
  | IntValue (v : Int)
  | DoubleValue (bits : Nat)
  | StringValue (s : List Byte)
deriving DecidableEq

/-- src/src/lib.rs impl RecordArg for bool: events appended by record_arg. -/
def record_arg_bool (b : Bool) : List Event := [Event.Bool b]

/-- src/src/lib.rs impl RecordArg for f64: the bit pattern is copied into one
F64 event. -/
def record_arg_f64 (bits : Nat) : List Event := [Event.F64 bits]

/-- src/src/lib.rs impl RecordArg for u64. -/
def record_arg_u64 (v : Nat) : List Event := [Event.U64 v]

/-- src/src/lib.rs impl RecordArg for u32: self.into() widens losslessly, so
the recorded U64 payload equals the u32 value. -/
def record_arg_u32 (v : Nat) : List Event := [Event.U64 v]

/-- src/src/lib.rs impl RecordArg for u16: lossless widening to U64. -/
def record_arg_u16 (v : Nat) : List Event := [Event.U64 v]

/-- src/src/lib.rs impl RecordArg for u8: lossless widening to U64. -/
def record_arg_u8 (v : Nat) : List Event := [Event.U64 v]

/-- src/src/lib.rs impl RecordArg for usize: self as u64 is lossless on the
64-bit targets the crate supports. -/
def record_arg_usize (v : Nat) : List Event := [Event.U64 v]

/-- src/src/lib.rs impl RecordArg for i64. -/
def record_arg_i64 (v : Int) : List Event := [Event.I64 v]

/-- src/src/lib.rs impl RecordArg for i32: self.into() widens losslessly. -/
def record_arg_i32 (v : Int) : List Event := [Event.I64 v]

/-- src/src/lib.rs impl RecordArg for i16: lossless widening to I64. -/
def record_arg_i16 (v : Int) : List Event := [Event.I64 v]

/-- src/src/lib.rs impl RecordArg for i8: lossless widening to I64. -/
def record_arg_i8 (v : Int) : List Event := [Event.I64 v]

/-- src/src/lib.rs impl RecordArg for isize: self as i64 is lossless on the
64-bit targets the crate supports. -/
def record_arg_isize (v : Int) : List Event := [Event.I64 v]

/-- src/src/lib.rs impl RecordArg for String (owned text): one String event. -/
def record_arg_string (s : List Byte) : List Event := [Event.String s]

/-- src/src/lib.rs impl RecordArg for str slices. The source iterates
self.as_bytes().chunks(STR_PART_LEN) keeping a one-behind pending window: every
window of exactly STR_PART_LEN bytes that is followed by another window is
emitted as StrPart, and the final window (0 to STR_PART_LEN bytes) is
zero-padded into a STR_PART_LEN-byte buffer and emitted as StrEnd carrying its
true length. Unfolded here as direct recursion on the byte list: while more
than STR_PART_LEN bytes remain the next full window is a StrPart, and the final
window becomes the StrEnd. -/
def record_arg_str (s : List Byte) : List Event :=
  if h : s.length ≤ STR_PART_LEN then
    [Event.StrEnd s.length (s ++ List.replicate (STR_PART_LEN - s.length) 0)]
  else
    Event.StrPart (s.take STR_PART_LEN) :: record_arg_str (s.drop STR_PART_LEN)
termination_by s.length
decreasing_by
  simp only [List.length_drop, STR_PART_LEN] at *
  omega

/-- src/src/lib.rs convert_next_arg, inner accumulation loop for StrPart runs:
keep extending merged_bytes with StrPart payloads until a StrEnd appends its
length-truncated bytes; any other event (or running out) aborts the decode
(a fatal internal error in the source, modelled as none). -/
def merge_str_parts (acc : List Byte) : List Event → Option (Value × List Event)
  | Event.StrPart bytes :: rest => merge_str_parts (acc ++ bytes) rest
  | Event.StrEnd len bytes :: rest =>
      some (Value.StringValue (acc ++ bytes.take len), rest)
  | _ => none

/-- src/src/lib.rs convert_next_arg: reads one argument from the event stream,
returning the decoded value and the remaining events; marker and timestamp
events, or an exhausted stream, are fatal internal errors (modelled as none). -/
def convert_next_arg : List Event → Option (Value × List Event)
  | [] => none
  | Event.StartSpan _ :: _ => none
  | Event.EndSpan _ :: _ => none
  | Event.Timestamp _ :: _ => none
  | Event.Bool b :: rest => some (Value.BoolValue b, rest)
  | Event.U64 v :: rest => some (Value.UintValue v, rest)
  | Event.I64 v :: rest => some (Value.IntValue v, rest)
  | Event.F64 bits :: rest => some (Value.DoubleValue bits, rest)
  | Event.String s :: rest => some (Value.StringValue s, rest)
  | Event.StrPart bytes :: rest => merge_str_parts bytes rest
  | Event.StrEnd len bytes :: rest =>
      some (Value.StringValue (bytes.take len), rest)

theorem take_length_append {α : Type} (l₁ l₂ : List α) :
    (l₁ ++ l₂).take l₁.length = l₁ := by
  induction l₁ with
  | nil => simp
  | cons a t ih => simp [ih]

theorem merge_str_parts_record (s acc : List Byte) (rest : List Event) :
    merge_str_parts acc (record_arg_str s ++ rest) =
      some (Value.StringValue (acc ++ s), rest) := by
  by_cases h : s.length ≤ STR_PART_LEN
  · rw [record_arg_str]
    simp only [h, dif_pos, List.cons_append, List.nil_append, merge_str_parts]
    rw [take_length_append]
  · rw [record_arg_str]
    simp only [h, dif_neg, not_false_iff, List.cons_append, merge_str_parts]
    rw [merge_str_parts_record (s.drop STR_PART_LEN) (acc ++ s.take STR_PART_LEN) rest]
    simp
termination_by s.length
decreasing_by
  simp only [List.length_drop, STR_PART_LEN] at *
  omega

/-- Claim C2: for every text value (any byte sequence, which covers every
length including 0, 14, 15, 16 and beyond 100), encoding it by the borrowed
text argument contract and then decoding it through the builder accumulation
loop yields the byte-identical string and consumes exactly the events of that
argument, leaving the rest of the stream untouched. -/
theorem claim_C2_text_round_trip (s : List Byte) (rest : List Event) :
    convert_next_arg (record_arg_str s ++ rest) =
      some (Value.StringValue s, rest) := by
  by_cases h : s.length ≤ STR_PART_LEN
  · rw [record_arg_str]
    simp only [h, dif_pos, List.cons_append, List.nil_append, convert_next_arg]
    rw [take_length_append]
  · rw [record_arg_str]
    simp only [h, dif_neg, not_false_iff, List.cons_append, convert_next_arg]
    rw [merge_str_parts_record]
    simp

/-- Claim C3: each supported scalar argument type records exactly one event,
and decoding that event returns the exact value with the decoded kind matching
the type family: every unsigned width (8, 16, 32, 64, pointer-size) widens
losslessly and decodes as the unsigned 64-bit kind, every signed width widens
losslessly and decodes as the signed 64-bit kind, bool as the boolean kind,
f64 as the double kind (bit pattern preserved), owned text as the string kind.
The range hypotheses delimit the values inhabiting each source width. -/
theorem claim_C3_scalar_round_trip
    (b : Bool) (v8 v16 v32 v64 vus : Nat) (w8 w16 w32 w64 ws : Int)
    (bits : Nat) (s : List Byte) (rest : List Event)
    (h8 : v8 < 2 ^ 8) (h16 : v16 < 2 ^ 16) (h32 : v32 < 2 ^ 32)
    (h64 : v64 < 2 ^ 64) (hus : vus < 2 ^ 64)
    (g8 : -(2 ^ 7) ≤ w8 ∧ w8 < 2 ^ 7) (g16 : -(2 ^ 15) ≤ w16 ∧ w16 < 2 ^ 15)
    (g32 : -(2 ^ 31) ≤ w32 ∧ w32 < 2 ^ 31) (g64 : -(2 ^ 63) ≤ w64 ∧ w64 < 2 ^ 63)
    (gs : -(2 ^ 63) ≤ ws ∧ ws < 2 ^ 63) :
    ((record_arg_bool b).length = 1 ∧
      convert_next_arg (record_arg_bool b ++ rest) = some (Value.BoolValue b, rest)) ∧
    ((record_arg_u8 v8).length = 1 ∧
      convert_next_arg (record_arg_u8 v8 ++ rest) = some (Value.UintValue v8, rest)) ∧
    ((record_arg_u16 v16).length = 1 ∧
      convert_next_arg (record_arg_u16 v16 ++ rest) = some (Value.UintValue v16, rest)) ∧
    ((record_arg_u32 v32).length = 1 ∧
      convert_next_arg (record_arg_u32 v32 ++ rest) = some (Value.UintValue v32, rest)) ∧
    ((record_arg_u64 v64).length = 1 ∧
      convert_next_arg (record_arg_u64 v64 ++ rest) = some (Value.UintValue v64, rest)) ∧
    ((record_arg_usize vus).length = 1 ∧
      convert_next_arg (record_arg_usize vus ++ rest) = some (Value.UintValue vus, rest)) ∧
    ((record_arg_i8 w8).length = 1 ∧
      convert_next_arg (record_arg_i8 w8 ++ rest) = some (Value.IntValue w8, rest)) ∧
    ((record_arg_i16 w16).length = 1 ∧
      convert_next_arg (record_arg_i16 w16 ++ rest) = some (Value.IntValue w16, rest)) ∧
    ((record_arg_i32 w32).length = 1 ∧
      convert_next_arg (record_arg_i32 w32 ++ rest) = some (Value.IntValue w32, rest)) ∧
    ((record_arg_i64 w64).length = 1 ∧
      convert_next_arg (record_arg_i64 w64 ++ rest) = some (Value.IntValue w64, rest)) ∧
    ((record_arg_isize ws).length = 1 ∧
      convert_next_arg (record_arg_isize ws ++ rest) = some (Value.IntValue ws, rest)) ∧
    ((record_arg_f64 bits).length = 1 ∧
      convert_next_arg (record_arg_f64 bits ++ rest) = some (Value.DoubleValue bits, rest)) ∧
    ((record_arg_string s).length = 1 ∧
      convert_next_arg (record_arg_string s ++ rest) = some (Value.StringValue s, rest)) := by
  refine ⟨⟨rfl, rfl⟩, ⟨rfl, rfl⟩, ⟨rfl, rfl⟩, ⟨rfl, rfl⟩, ⟨rfl, rfl⟩, ⟨rfl, rfl⟩,
    ⟨rfl, rfl⟩, ⟨rfl, rfl⟩, ⟨rfl, rfl⟩, ⟨rfl, rfl⟩, ⟨rfl, rfl⟩, ⟨rfl, rfl⟩, ⟨rfl, rfl⟩⟩

/-- Witness for claim C3 at concrete values of every scalar type. -/
theorem claim_C3_scalar_round_trip_witness :
    (7 : Nat) < 2 ^ 8 ∧
    convert_next_arg (record_arg_u8 7 ++ []) = some (Value.UintValue 7, []) ∧
    convert_next_arg (record_arg_i8 (-5) ++ []) = some (Value.IntValue (-5), []) ∧
    convert_next_arg (record_arg_bool true ++ []) = some (Value.BoolValue true, []) := by
  have h := claim_C3_scalar_round_trip true 7 9 11 13 15 (-5) (-6) (-7) (-8) (-9)
    42 [104, 105] []
    (by decide) (by decide) (by decide) (by decide) (by decide)
    (by decide) (by decide) (by decide) (by decide) (by decide)
  exact ⟨by decide, h.2.1.2, h.2.2.2.2.2.2.1.2, h.1.2⟩

/-- src/src/lib.rs is_enabled: true only when the crate feature compiled the
instrumentation in and the runtime flag has been stored true. -/
def is_enabled (featureEnable runtimeEnabled : Bool) : Bool :=
  featureEnable && runtimeEnabled

/-- src/src/lib.rs fn start: given the build-time feature state and the current
global flag, returns the new global flag value and the result value. -/
def start (featureEnable runtimeEnabled : Bool) : Bool × Except Unit Unit :=
  if !featureEnable then (runtimeEnabled, Except.error ())
  else (true, Except.ok ())

/-- src/src/lib.rs start_span, the recording entry point: the events appended to the
current thread log when a span is started, given the value of is_enabled at
that moment. When enabled: the StartSpan marker, its timestamp, then the
events of each declared argument (already flattened into argEvents); when
disabled: nothing. -/
def start_span_events (enabled : Bool) (si : SourceInfo) (now : Nat)
    (argEvents : List Event) : List Event :=
  if enabled then Event.StartSpan si :: Event.Timestamp now :: argEvents else []

/-- src/src/lib.rs impl Drop for SpanGuard: the events appended when the guard
is disposed, given the value of is_enabled at that moment (the drop handler
re-reads the flag; it does not remember the value seen at creation). -/
def span_guard_drop_events (enabled : Bool) (si : SourceInfo) (now : Nat) :
    List Event :=
  if enabled then [Event.EndSpan si, Event.Timestamp now] else []

/-- Events appended to the thread log over the whole lifetime of one span
guard: those appended at creation under the flag value then in force, followed
by those appended at disposal under the flag value in force at that later
moment. -/
def span_lifetime_events (enabledAtStart enabledAtDrop : Bool) (si : SourceInfo)
    (tStart tDrop : Nat) (argEvents : List Event) : List Event :=
  start_span_events enabledAtStart si tStart argEvents ++
    span_guard_drop_events enabledAtDrop si tDrop

/-- Claim C1, counterexample: a span guard created while the global enable flag
is false but disposed after the activation call has set it true appends the
EndSpan marker and a timestamp at disposal, because the drop handler re-checks
the flag at drop time; the lifetime therefore records two events, not zero. -/
theorem claim_C1_counterexample :
    span_lifetime_events false true ⟨"s", "f", 1, []⟩ 0 5 [] =
        [Event.EndSpan ⟨"s", "f", 1, []⟩, Event.Timestamp 5] ∧
    span_lifetime_events false true ⟨"s", "f", 1, []⟩ 0 5 [] ≠ [] := by
  exact ⟨rfl, by decide⟩

/-- Claim C1 as amended: for every span guard created while the global enable
flag is false, starting the span appends nothing; disposing the guard appends
nothing when the flag is still false at disposal, but when the activation call
has set the flag true before disposal, disposing appends exactly the end
marker and its timestamp (an orphan end marker). -/
theorem claim_C1_preactivation_span (enabledAtDrop : Bool) (si : SourceInfo)
    (tStart tDrop : Nat) (argEvents : List Event) :
    span_lifetime_events false enabledAtDrop si tStart tDrop argEvents =
      if enabledAtDrop then [Event.EndSpan si, Event.Timestamp tDrop] else [] := by
  simp [span_lifetime_events, start_span_events, span_guard_drop_events]

/-- Modelled from the spec: interned display-name registration entry of the
wire-format collaborator (generated schema module, absent from src/). -/
structure EventName where
  iid : Option Nat
  name : Option String
deriving DecidableEq

/-- Modelled from the spec: interned argument-name registration entry of the
wire-format collaborator. -/
structure DebugAnnotationName where
  iid : Option Nat
  name : Option String
deriving DecidableEq

/-- Modelled from the spec: interned source-location registration entry of the
wire-format collaborator. -/
structure SourceLocation where
  iid : Option Nat
  file_name : Option String
  function_name : Option String
  line_number : Option Nat
deriving DecidableEq

/-- Modelled from the spec: the batch of newly interned names and locations
attached to a packet. -/
structure InternedData where
  event_names : List EventName
  debug_annotation_names : List DebugAnnotationName
  source_locations : List SourceLocation
deriving DecidableEq

/-- Default (empty) interned batch, Default::default() of the schema type. -/
def InternedData.default : InternedData := ⟨[], [], []⟩

/-- Modelled from the spec: thread identity carried by a track descriptor. -/
structure ThreadDescriptor where
  pid : Option Int
  tid : Option Int
  thread_name : Option String
deriving DecidableEq

/-- Modelled from the spec: counter identity carried by a track descriptor
(unit, optional custom unit name, unit multiplier, incremental flag). The unit
is the proto enum numeral. -/
structure CounterDescriptor where
  unit : Option Int
  unit_name : Option String
  unit_multiplier : Option Int
  is_incremental : Option Bool
deriving DecidableEq

/-- Modelled from the spec: a track descriptor packet payload. -/
structure TrackDescriptor where
  uuid : Option Nat
  parent_uuid : Option Nat
  process : Option Unit
  thread : Option ThreadDescriptor
  counter : Option CounterDescriptor
  static_or_dynamic_name : Option String
deriving DecidableEq

/-- Default track descriptor, Default::default() of the schema type. -/
def TrackDescriptor.default : TrackDescriptor :=
  ⟨none, none, none, none, none, none⟩

/-- Modelled from the spec: the begin/end/counter discriminator of a track
event. -/
inductive TrackEventType where
  | SliceBegin
  | SliceEnd
  | Counter
deriving DecidableEq

/-- Modelled from the spec: one decoded name/value debug annotation; the name
is an interned-name reference. -/
structure DebugAnnotation where
  name_iid : Option Nat
  value : Option Value
deriving DecidableEq

/-- Modelled from the spec: an absolute or double counter value on a track
event. -/
inductive CounterValueField where
  | CounterValue (v : Int)
  | DoubleCounterValue (bits : Nat)
deriving DecidableEq

/-- Modelled from the spec: a track event packet payload. -/
structure TrackEvent where
  type : Option TrackEventType
  name_iid : Option Nat
  source_location_iid : Option Nat
  track_uuid : Option Nat
  debug_annotations : List DebugAnnotation
  counter_value_field : Option CounterValueField
deriving DecidableEq

/-- Default track event, Default::default() of the schema type. -/
def TrackEvent.default : TrackEvent := ⟨none, none, none, none, [], none⟩

/-- Modelled from the spec: the packet payload union (exactly one of a track
descriptor or a track event, or absent). -/
inductive PacketData where
  | TrackEvent (te : TrackEvent)
  | TrackDescriptor (td : TrackDescriptor)
deriving DecidableEq

/-- Modelled from the spec: one output packet of the wire format. -/
structure TracePacket where
  timestamp : Option Nat
  timestamp_clock_id : Option Nat
  data : Option PacketData
  interned_data : Option InternedData
  sequence_flags : Option Nat
  optional_trusted_packet_sequence_id : Option Nat
deriving DecidableEq

/-- Default packet, Default::default() of the schema type. -/
def TracePacket.default : TracePacket := ⟨none, none, none, none, none, none⟩

/-- Modelled from the spec: the sequence-flags bit declaring that previously
seen interned and incremental state is cleared (proto enum numeral). -/
def SEQ_INCREMENTAL_STATE_CLEARED : Nat := 2

/-- src/src/lib.rs const CLOCK_ID. -/
def CLOCK_ID : Nat := 6

/-- src/src/lib.rs TraceBuilder::get_unix_nanos, wall-clock policy: an instant
is nanoseconds since the epoch and the u128 nanosecond count is truncated to
u64. -/
def get_unix_nanos (t : Nat) : Nat := t % 2 ^ 64

/-- src/src/lib.rs struct ThreadTraceData: the capture snapshot of one thread
(drained events plus OS identity). Pids are raw i32 values. -/
structure ThreadTraceData where
  events : List Event
  pid : Int
  tid : Int
  thread_name : Option String
deriving DecidableEq

/-- src/src/lib.rs struct TracingDisabled: the not-activated error value. -/
inductive TracingDisabled where
  | mk
deriving DecidableEq

/-- src/src/lib.rs struct TraceBuilder. HashMaps are modelled as insertion
ordered association lists (lookup by key equality; the length is the map
size). The random sequence identifier is supplied at construction. -/
structure TraceBuilder where
  trace : List TracePacket
  pending_interned : Option InternedData
  name_ids : List (String × Nat)
  debug_annotation_name_ids : List (String × Nat)
  source_location_ids : List ((String × Nat) × Nat)
  thread_uuids : List (Int × Nat)
  sequence_id : Nat
deriving DecidableEq

/-- Association-list lookup modelling HashMap::get. -/
def alookup {α β : Type} [DecidableEq α] (k : α) : List (α × β) → Option β
  | [] => none
  | (k₁, v) :: rest => if k = k₁ then some v else alookup k rest

/-- src/src/lib.rs TraceBuilder::add_packet: stamp the packet with the
sequence identifier of this builder and append it to the output. -/
def TraceBuilder.add_packet (b : TraceBuilder) (p : TracePacket) : TraceBuilder :=
  { b with trace := b.trace ++
      [{ p with optional_trusted_packet_sequence_id := some b.sequence_id }] }

/-- src/src/lib.rs TraceBuilder::new: fails with TracingDisabled when
is_enabled is false; otherwise builds the empty-state builder with the drawn
random sequence identifier (here the parameter seqId models the rng draw) and
emits the initial packet whose sequence flags declare incremental state
cleared. -/
def TraceBuilder.new (featureEnable runtimeEnabled : Bool) (seqId : Nat) :
    Except TracingDisabled TraceBuilder :=
  if !is_enabled featureEnable runtimeEnabled then
    Except.error TracingDisabled.mk
  else
    let builder : TraceBuilder :=
      { trace := [], pending_interned := none, name_ids := [],
        debug_annotation_name_ids := [], source_location_ids := [],
        thread_uuids := [], sequence_id := seqId }
    Except.ok (builder.add_packet
      { TracePacket.default with
          sequence_flags := some SEQ_INCREMENTAL_STATE_CLEARED })

/-- src/src/lib.rs TraceBuilder::name_id: next_id is the current map size plus
one; a hit returns the stored id unchanged, a miss registers the name in the
pending interned batch and stores the new id. -/
def TraceBuilder.name_id (b : TraceBuilder) (name : String) :
    Nat × TraceBuilder :=
  match alookup name b.name_ids with
  | some id => (id, b)
  | none =>
      let next_id := b.name_ids.length + 1
      let interned := b.pending_interned.getD InternedData.default
      (next_id,
        { b with
            name_ids := b.name_ids ++ [(name, next_id)],
            pending_interned := some { interned with
              event_names := interned.event_names ++
                [{ iid := some next_id, name := some name }] } })

/-- src/src/lib.rs TraceBuilder::debug_annotation_name_id: same interning
scheme over the argument-name table. -/
def TraceBuilder.debug_annotation_name_id (b : TraceBuilder) (name : String) :
    Nat × TraceBuilder :=
  match alookup name b.debug_annotation_name_ids with
  | some id => (id, b)
  | none =>
      let next_id := b.debug_annotation_name_ids.length + 1
      let interned := b.pending_interned.getD InternedData.default
      (next_id,
        { b with
            debug_annotation_name_ids :=
              b.debug_annotation_name_ids ++ [(name, next_id)],
            pending_interned := some { interned with
              debug_annotation_names := interned.debug_annotation_names ++
                [{ iid := some next_id, name := some name }] } })

/-- src/src/lib.rs TraceBuilder::source_location_id: same interning scheme
keyed by the (file, line) pair. -/
def TraceBuilder.source_location_id (b : TraceBuilder) (si : SourceInfo) :
    Nat × TraceBuilder :=
  match alookup (si.file, si.line) b.source_location_ids with
  | some id => (id, b)
  | none =>
      let next_id := b.source_location_ids.length + 1
      let interned := b.pending_interned.getD InternedData.default
      (next_id,
        { b with
            source_location_ids :=
              b.source_location_ids ++ [((si.file, si.line), next_id)],
            pending_interned := some { interned with
              source_locations := interned.source_locations ++
                [{ iid := some next_id, file_name := some si.file,
                   function_name := none, line_number := some si.line }] } })

/-- src/src/lib.rs emit_track_event argument loop: for each declared argument
name, decode the next argument value from the event stream (convert_next_arg),
then intern the argument name; a failed decode is a fatal internal error
(none). Returns the annotations, the updated builder and the remaining
events. -/
def TraceBuilder.convert_args (b : TraceBuilder) :
    List String → List Event →
      Option (List DebugAnnotation × TraceBuilder × List Event)
  | [], events => some ([], b, events)
  | argName :: restNames, events =>
      match convert_next_arg events with
      | none => none
      | some (v, events₁) =>
          let (nid, b₁) := b.debug_annotation_name_id argName
          match b₁.convert_args restNames events₁ with
          | none => none
          | some (annos, b₂, events₂) =>
              some ({ name_iid := some nid, value := some v } :: annos,
                b₂, events₂)

/-- src/src/lib.rs TraceBuilder::emit_track_event: the event after the marker
must be a Timestamp (else fatal); intern the display name and the source
location; for a SliceBegin marker with declared argument names decode that
many debug annotations; then emit one track-event packet carrying the
converted timestamp, the clock id, the interned references, the track uuid and
the pending interned batch (which is taken, leaving none pending). -/
def TraceBuilder.emit_track_event (b : TraceBuilder) (si : SourceInfo)
    (kind : TrackEventType) (events : List Event) (thread_uuid : Nat) :
    Option (TraceBuilder × List Event) :=
  match events with
  | Event.Timestamp t :: events₁ =>
      let (nid, b₁) := b.name_id si.name
      let (slid, b₂) := b₁.source_location_id si
      let decoded :=
        if kind = TrackEventType.SliceBegin ∧ si.arg_names ≠ [] then
          b₂.convert_args si.arg_names events₁
        else
          some ([], b₂, events₁)
      match decoded with
      | none => none
      | some (annos, b₃, events₂) =>
          let te : TrackEvent :=
            { type := some kind, name_iid := some nid,
              source_location_iid := some slid,
              track_uuid := some thread_uuid,
              debug_annotations := annos, counter_value_field := none }
          let packet : TracePacket :=
            { timestamp := some (get_unix_nanos t),
              timestamp_clock_id := some CLOCK_ID,
              data := some (PacketData.TrackEvent te),
              interned_data := b₃.pending_interned,
              sequence_flags := none,
              optional_trusted_packet_sequence_id := none }
          some (({ b₃ with pending_interned := none }).add_packet packet,
            events₂)
  | _ => none

/-- src/src/lib.rs TraceBuilder::thread_uuid: a seen thread id returns its
stored uuid with no emission; an unseen one mints a uuid (the freshUuid
parameter models the rng draw), emits its thread track-descriptor packet
immediately and stores the mapping. -/
def TraceBuilder.thread_uuid (b : TraceBuilder) (thread : ThreadTraceData)
    (freshUuid : Nat) : Nat × TraceBuilder :=
  match alookup thread.tid b.thread_uuids with
  | some uuid => (uuid, b)
  | none =>
      let b₁ := b.add_packet
        { TracePacket.default with
            data := some (PacketData.TrackDescriptor
              { TrackDescriptor.default with
                  uuid := some freshUuid,
                  thread := some
                    { pid := some thread.pid, tid := some thread.tid,
                      thread_name := thread.thread_name } }) }
      (freshUuid, { b₁ with
        thread_uuids := b₁.thread_uuids ++ [(thread.tid, freshUuid)] })

theorem merge_str_parts_shrinks (events : List Event) (acc : List Byte)
    (v : Value) (rest : List Event)
    (h : merge_str_parts acc events = some (v, rest)) :
    rest.length < events.length := by
  induction events generalizing acc with
  | nil => simp [merge_str_parts] at h
  | cons e tail ih =>
    cases e with
    | StrPart bytes =>
        have := ih (acc ++ bytes) h
        simp only [List.length_cons]
        omega
    | StrEnd len bytes =>
        simp only [merge_str_parts, Option.some.injEq, Prod.mk.injEq] at h
        rw [← h.2]
        simp
    | StartSpan si => simp [merge_str_parts] at h
    | EndSpan si => simp [merge_str_parts] at h
    | Timestamp t => simp [merge_str_parts] at h
    | Bool b => simp [merge_str_parts] at h
    | U64 w => simp [merge_str_parts] at h
    | I64 w => simp [merge_str_parts] at h
    | F64 w => simp [merge_str_parts] at h
    | String s => simp [merge_str_parts] at h

theorem convert_next_arg_shrinks (events : List Event) (v : Value)
    (rest : List Event) (h : convert_next_arg events = some (v, rest)) :
    rest.length < events.length := by
  cases events with
  | nil => simp [convert_next_arg] at h
  | cons e tail =>
    cases e with
    | StartSpan si => simp [convert_next_arg] at h
    | EndSpan si => simp [convert_next_arg] at h
    | Timestamp t => simp [convert_next_arg] at h
    | Bool b =>
        simp only [convert_next_arg, Option.some.injEq, Prod.mk.injEq] at h
        rw [← h.2]; simp
    | U64 w =>
        simp only [convert_next_arg, Option.some.injEq, Prod.mk.injEq] at h
        rw [← h.2]; simp
    | I64 w =>
        simp only [convert_next_arg, Option.some.injEq, Prod.mk.injEq] at h
        rw [← h.2]; simp
    | F64 w =>
        simp only [convert_next_arg, Option.some.injEq, Prod.mk.injEq] at h
        rw [← h.2]; simp
    | String s =>
        simp only [convert_next_arg, Option.some.injEq, Prod.mk.injEq] at h
        rw [← h.2]; simp
    | StrPart bytes =>
        simp only [convert_next_arg] at h
        have := merge_str_parts_shrinks tail bytes v rest h
        simp only [List.length_cons]
        omega
    | StrEnd len bytes =>
        simp only [convert_next_arg, Option.some.injEq, Prod.mk.injEq] at h
        rw [← h.2]; simp

theorem convert_args_shrinks (names : List String) (b : TraceBuilder)
    (events : List Event) (annos : List DebugAnnotation) (b' : TraceBuilder)
    (rest : List Event)
    (h : b.convert_args names events = some (annos, b', rest)) :
    rest.length ≤ events.length := by
  induction names generalizing b events annos b' rest with
  | nil =>
      simp only [TraceBuilder.convert_args, Option.some.injEq,
        Prod.mk.injEq] at h
      rw [← h.2.2]
  | cons n ns ih =>
      simp only [TraceBuilder.convert_args] at h
      cases hc : convert_next_arg events with
      | none => rw [hc] at h; simp at h
      | some p =>
          obtain ⟨v, events₁⟩ := p
          rw [hc] at h
          rcases hd : b.debug_annotation_name_id n with ⟨nid, b₁⟩
          rw [hd] at h
          dsimp only at h
          cases hr : b₁.convert_args ns events₁ with
          | none => rw [hr] at h; simp at h
          | some q =>
              obtain ⟨annos₂, b₂, events₂⟩ := q
              rw [hr] at h
              simp only [Option.some.injEq, Prod.mk.injEq] at h
              have h₁ := convert_next_arg_shrinks events v events₁ hc
              have h₂ := ih b₁ events₁ annos₂ b₂ events₂ hr
              rw [← h.2.2]
              omega

theorem emit_track_event_shrinks (b : TraceBuilder) (si : SourceInfo)
    (kind : TrackEventType) (events : List Event) (tu : Nat)
    (b' : TraceBuilder) (rest : List Event)
    (h : b.emit_track_event si kind events tu = some (b', rest)) :
    rest.length < events.length := by
  cases events with
  | nil => simp [TraceBuilder.emit_track_event] at h
  | cons e tail =>
    cases e with
    | Timestamp t =>
        simp only [TraceBuilder.emit_track_event] at h
        rcases hn : b.name_id si.name with ⟨nid, b₁⟩
        rw [hn] at h
        rcases hs : b₁.source_location_id si with ⟨slid, b₂⟩
        rw [hs] at h
        by_cases hk : kind = TrackEventType.SliceBegin ∧ si.arg_names ≠ []
        · rw [if_pos hk] at h
          cases hd : b₂.convert_args si.arg_names tail with
          | none => rw [hd] at h; simp at h
          | some q =>
              obtain ⟨annos, b₃, events₂⟩ := q
              rw [hd] at h
              simp only [Option.some.injEq, Prod.mk.injEq] at h
              have := convert_args_shrinks si.arg_names b₂ tail annos b₃
                events₂ hd
              rw [← h.2]
              simp only [List.length_cons]
              omega
        · rw [if_neg hk] at h
          simp only [Option.some.injEq, Prod.mk.injEq] at h
          rw [← h.2]
          simp
    | StartSpan si₂ => simp [TraceBuilder.emit_track_event] at h
    | EndSpan si₂ => simp [TraceBuilder.emit_track_event] at h
    | Bool v => simp [TraceBuilder.emit_track_event] at h
    | U64 v => simp [TraceBuilder.emit_track_event] at h
    | I64 v => simp [TraceBuilder.emit_track_event] at h
    | F64 v => simp [TraceBuilder.emit_track_event] at h
    | String s => simp [TraceBuilder.emit_track_event] at h
    | StrPart bytes => simp [TraceBuilder.emit_track_event] at h
    | StrEnd len bytes => simp [TraceBuilder.emit_track_event] at h

/-- src/src/lib.rs TraceBuilder::process_thread_data, event walk: only
StartSpan and EndSpan markers are valid at the top level; emit one track event
per marker. Any other event at the top level is a fatal internal error
(none). -/
def TraceBuilder.process_events (b : TraceBuilder) (events : List Event)
    (thread_uuid : Nat) : Option TraceBuilder :=
  match events with
  | [] => some b
  | Event.StartSpan si :: rest =>
      match h : b.emit_track_event si TrackEventType.SliceBegin rest
          thread_uuid with
      | none => none
      | some (b₁, rest₁) => b₁.process_events rest₁ thread_uuid
  | Event.EndSpan si :: rest =>
      match h : b.emit_track_event si TrackEventType.SliceEnd rest
          thread_uuid with
      | none => none
      | some (b₁, rest₁) => b₁.process_events rest₁ thread_uuid
  | _ => none
termination_by events.length
decreasing_by
  · have := emit_track_event_shrinks b si TrackEventType.SliceBegin rest
      thread_uuid b₁ rest₁ h
    simp only [List.length_cons]
    omega
  · have := emit_track_event_shrinks b si TrackEventType.SliceEnd rest
      thread_uuid b₁ rest₁ h
    simp only [List.length_cons]
    omega

/-- src/src/lib.rs TraceBuilder::process_thread_data: resolve the track uuid
of the thread of this capture (emitting its descriptor when unseen), then walk
the events. -/
def TraceBuilder.process_thread_data (b : TraceBuilder)
    (thread : ThreadTraceData) (freshUuid : Nat) : Option TraceBuilder :=
  let r := b.thread_uuid thread freshUuid
  r.2.process_events thread.events r.1

/-- src/src/lib.rs enum CounterUnit. -/
inductive CounterUnit where
  | Unspecified
  | TimeNs
  | Count
  | SizeBytes
  | Custom (name : String)
deriving DecidableEq

/-- src/src/lib.rs CounterUnit::to_proto_unit; Custom maps to the Unspecified
numeral. The numerals belong to the absent schema module and are modelled from
the spec. -/
def CounterUnit.to_proto_unit : CounterUnit → Option Int
  | CounterUnit.Unspecified => some 0
  | CounterUnit.TimeNs => some 1
  | CounterUnit.Count => some 2
  | CounterUnit.SizeBytes => some 3
  | CounterUnit.Custom _ => some 0

/-- src/src/lib.rs CounterUnit::to_proto_unit_name. -/
def CounterUnit.to_proto_unit_name : CounterUnit → Option String
  | CounterUnit.Custom name => some name
  | _ => none

/-- src/src/lib.rs struct CounterTrack: the copyable handle to a counter
track. -/
structure CounterTrack where
  uuid : Nat
deriving DecidableEq

/-- src/src/lib.rs TraceBuilder::create_counter_track: mint a uuid (the rng
draw is the freshUuid parameter), emit the counter track-descriptor packet and
return the handle. -/
def TraceBuilder.create_counter_track (b : TraceBuilder) (name : String)
    (unit : CounterUnit) (unit_multiplier : Int) (is_incremental : Bool)
    (freshUuid : Nat) : CounterTrack × TraceBuilder :=
  (⟨freshUuid⟩, b.add_packet
    { TracePacket.default with
        data := some (PacketData.TrackDescriptor
          { uuid := some freshUuid, parent_uuid := none, process := none,
            thread := none,
            counter := some
              { unit := unit.to_proto_unit,
                unit_name := unit.to_proto_unit_name,
                unit_multiplier := some unit_multiplier,
                is_incremental := some is_incremental },
            static_or_dynamic_name := some name }) })

/-- src/src/lib.rs TraceBuilder::record_counter_i64: one counter-value packet
at the caller-supplied timestamp for the uuid of the handle. -/
def TraceBuilder.record_counter_i64 (b : TraceBuilder) (counter : CounterTrack)
    (timestamp : Nat) (value : Int) : TraceBuilder :=
  b.add_packet
    { timestamp := some (get_unix_nanos timestamp),
      timestamp_clock_id := some CLOCK_ID,
      data := some (PacketData.TrackEvent
        { TrackEvent.default with
            type := some TrackEventType.Counter,
            track_uuid := some counter.uuid,
            counter_value_field :=
              some (CounterValueField.CounterValue value) }),
      interned_data := none, sequence_flags := none,
      optional_trusted_packet_sequence_id := none }

/-- src/src/lib.rs TraceBuilder::record_counter_f64: one counter-value packet
carrying the double value (uninterpreted bit pattern). -/
def TraceBuilder.record_counter_f64 (b : TraceBuilder) (counter : CounterTrack)
    (timestamp : Nat) (bits : Nat) : TraceBuilder :=
  b.add_packet
    { timestamp := some (get_unix_nanos timestamp),
      timestamp_clock_id := some CLOCK_ID,
      data := some (PacketData.TrackEvent
        { TrackEvent.default with
            type := some TrackEventType.Counter,
            track_uuid := some counter.uuid,
            counter_value_field :=
              some (CounterValueField.DoubleCounterValue bits) }),
      interned_data := none, sequence_flags := none,
      optional_trusted_packet_sequence_id := none }

theorem name_id_frame (b : TraceBuilder) (n : String) :
    (b.name_id n).2.trace = b.trace ∧
    (b.name_id n).2.thread_uuids = b.thread_uuids ∧
    (b.name_id n).2.sequence_id = b.sequence_id := by
  unfold TraceBuilder.name_id
  cases alookup n b.name_ids <;> simp

theorem debug_annotation_name_id_frame (b : TraceBuilder) (n : String) :
    (b.debug_annotation_name_id n).2.trace = b.trace ∧
    (b.debug_annotation_name_id n).2.thread_uuids = b.thread_uuids ∧
    (b.debug_annotation_name_id n).2.sequence_id = b.sequence_id := by
  unfold TraceBuilder.debug_annotation_name_id
  cases alookup n b.debug_annotation_name_ids <;> simp

theorem source_location_id_frame (b : TraceBuilder) (si : SourceInfo) :
    (b.source_location_id si).2.trace = b.trace ∧
    (b.source_location_id si).2.thread_uuids = b.thread_uuids ∧
    (b.source_location_id si).2.sequence_id = b.sequence_id := by
  unfold TraceBuilder.source_location_id
  cases alookup (si.file, si.line) b.source_location_ids <;> simp

theorem convert_args_frame (names : List String) (b : TraceBuilder)
    (events : List Event) (annos : List DebugAnnotation) (b' : TraceBuilder)
    (rest : List Event)
    (h : b.convert_args names events = some (annos, b', rest)) :
    b'.trace = b.trace ∧ b'.thread_uuids = b.thread_uuids ∧
    b'.sequence_id = b.sequence_id := by
  induction names generalizing b events annos b' rest with
  | nil =>
      simp only [TraceBuilder.convert_args, Option.some.injEq,
        Prod.mk.injEq] at h
      rw [← h.2.1]
      exact ⟨rfl, rfl, rfl⟩
  | cons n ns ih =>
      simp only [TraceBuilder.convert_args] at h
      cases hc : convert_next_arg events with
      | none => rw [hc] at h; simp at h
      | some p =>
          obtain ⟨v, events₁⟩ := p
          rw [hc] at h
          rcases hd : b.debug_annotation_name_id n with ⟨nid, b₁⟩
          rw [hd] at h
          dsimp only at h
          cases hr : b₁.convert_args ns events₁ with
          | none => rw [hr] at h; simp at h
          | some q =>
              obtain ⟨annos₂, b₂, events₂⟩ := q
              rw [hr] at h
              simp only [Option.some.injEq, Prod.mk.injEq] at h
              have hfr := debug_annotation_name_id_frame b n
              rw [hd] at hfr
              have hrec := ih b₁ events₁ annos₂ b₂ events₂ hr
              rw [← h.2.1]
              exact ⟨hrec.1.trans hfr.1, hrec.2.1.trans hfr.2.1,
                hrec.2.2.trans hfr.2.2⟩

theorem emit_track_event_spec (b : TraceBuilder) (si : SourceInfo)
    (kind : TrackEventType) (events : List Event) (tu : Nat)
    (b' : TraceBuilder) (rest : List Event)
    (h : b.emit_track_event si kind events tu = some (b', rest)) :
    b'.thread_uuids = b.thread_uuids ∧ b'.sequence_id = b.sequence_id ∧
    ∃ p : TracePacket,
      b'.trace = b.trace ++ [p] ∧
      (∃ te : TrackEvent, p.data = some (PacketData.TrackEvent te) ∧
        te.track_uuid = some tu) ∧
      p.optional_trusted_packet_sequence_id = some b.sequence_id := by
  cases events with
  | nil => simp [TraceBuilder.emit_track_event] at h
  | cons e tail =>
    cases e with
    | Timestamp t =>
        simp only [TraceBuilder.emit_track_event] at h
        rcases hn : b.name_id si.name with ⟨nid, b₁⟩
        rw [hn] at h
        rcases hs : b₁.source_location_id si with ⟨slid, b₂⟩
        rw [hs] at h
        dsimp only at h
        have hfn := name_id_frame b si.name
        rw [hn] at hfn
        have hfs := source_location_id_frame b₁ si
        rw [hs] at hfs
        by_cases hk : kind = TrackEventType.SliceBegin ∧ si.arg_names ≠ []
        · rw [if_pos hk] at h
          cases hd : b₂.convert_args si.arg_names tail with
          | none => rw [hd] at h; simp at h
          | some q =>
              obtain ⟨annos, b₃, events₂⟩ := q
              rw [hd] at h
              simp only [Option.some.injEq, Prod.mk.injEq] at h
              have hfc := convert_args_frame si.arg_names b₂ tail annos b₃
                events₂ hd
              rw [← h.1]
              have htu : b₃.thread_uuids = b.thread_uuids :=
                (hfc.2.1.trans hfs.2.1).trans hfn.2.1
              have hsq : b₃.sequence_id = b.sequence_id :=
                (hfc.2.2.trans hfs.2.2).trans hfn.2.2
              have htr : b₃.trace = b.trace :=
                (hfc.1.trans hfs.1).trans hfn.1
              refine ⟨htu, hsq,
                { timestamp := some (get_unix_nanos t),
                  timestamp_clock_id := some CLOCK_ID,
                  data := some (PacketData.TrackEvent
                    { type := some kind, name_iid := some nid,
                      source_location_iid := some slid,
                      track_uuid := some tu,
                      debug_annotations := annos,
                      counter_value_field := none }),
                  interned_data := b₃.pending_interned,
                  sequence_flags := none,
                  optional_trusted_packet_sequence_id :=
                    some b.sequence_id },
                ?_, ⟨_, rfl, rfl⟩, rfl⟩
              simp [TraceBuilder.add_packet, htr, hsq]
        · rw [if_neg hk] at h
          simp only [Option.some.injEq, Prod.mk.injEq] at h
          rw [← h.1]
          have htu : b₂.thread_uuids = b.thread_uuids :=
            hfs.2.1.trans hfn.2.1
          have hsq : b₂.sequence_id = b.sequence_id :=
            hfs.2.2.trans hfn.2.2
          have htr : b₂.trace = b.trace := hfs.1.trans hfn.1
          refine ⟨htu, hsq,
            { timestamp := some (get_unix_nanos t),
              timestamp_clock_id := some CLOCK_ID,
              data := some (PacketData.TrackEvent
                { type := some kind, name_iid := some nid,
                  source_location_iid := some slid,
                  track_uuid := some tu,
                  debug_annotations := [],
                  counter_value_field := none }),
              interned_data := b₂.pending_interned,
              sequence_flags := none,
              optional_trusted_packet_sequence_id := some b.sequence_id },
            ?_, ⟨_, rfl, rfl⟩, rfl⟩
          simp [TraceBuilder.add_packet, htr, hsq]
    | StartSpan si₂ => simp [TraceBuilder.emit_track_event] at h
    | EndSpan si₂ => simp [TraceBuilder.emit_track_event] at h
    | Bool v => simp [TraceBuilder.emit_track_event] at h
    | U64 v => simp [TraceBuilder.emit_track_event] at h
    | I64 v => simp [TraceBuilder.emit_track_event] at h
    | F64 v => simp [TraceBuilder.emit_track_event] at h
    | String s => simp [TraceBuilder.emit_track_event] at h
    | StrPart bytes => simp [TraceBuilder.emit_track_event] at h
    | StrEnd len bytes => simp [TraceBuilder.emit_track_event] at h

theorem process_events_spec (b : TraceBuilder) (events : List Event) (tu : Nat)
    (b' : TraceBuilder) (h : b.process_events events tu = some b') :
    b'.thread_uuids = b.thread_uuids ∧ b'.sequence_id = b.sequence_id ∧
    ∃ extra : List TracePacket,
      b'.trace = b.trace ++ extra ∧
      ∀ p ∈ extra,
        (∃ te : TrackEvent, p.data = some (PacketData.TrackEvent te) ∧
          te.track_uuid = some tu) ∧
        p.optional_trusted_packet_sequence_id = some b.sequence_id := by
  match events with
  | [] =>
      simp only [TraceBuilder.process_events, Option.some.injEq] at h
      rw [← h]
      exact ⟨rfl, rfl, [], by simp, by simp⟩
  | Event.StartSpan si :: rest =>
      rw [TraceBuilder.process_events] at h
      cases he : b.emit_track_event si TrackEventType.SliceBegin rest tu with
      | none => rw [he] at h; simp at h
      | some q =>
          obtain ⟨b₁, rest₁⟩ := q
          rw [he] at h
          dsimp only at h
          have hstep := emit_track_event_spec b si TrackEventType.SliceBegin
            rest tu b₁ rest₁ he
          obtain ⟨p, hp, hte, hseq⟩ := hstep.2.2
          have hrec := process_events_spec b₁ rest₁ tu b' h
          obtain ⟨extra, hex, hall⟩ := hrec.2.2
          refine ⟨hrec.1.trans hstep.1, hrec.2.1.trans hstep.2.1,
            p :: extra, ?_, ?_⟩
          · rw [hex, hp]; simp
          · intro q hq
            cases hq with
            | head => exact ⟨hte, hseq⟩
            | tail _ hq₂ =>
                have := hall q hq₂
                rw [hstep.2.1] at this
                exact this
  | Event.EndSpan si :: rest =>
      rw [TraceBuilder.process_events] at h
      cases he : b.emit_track_event si TrackEventType.SliceEnd rest tu with
      | none => rw [he] at h; simp at h
      | some q =>
          obtain ⟨b₁, rest₁⟩ := q
          rw [he] at h
          dsimp only at h
          have hstep := emit_track_event_spec b si TrackEventType.SliceEnd
            rest tu b₁ rest₁ he
          obtain ⟨p, hp, hte, hseq⟩ := hstep.2.2
          have hrec := process_events_spec b₁ rest₁ tu b' h
          obtain ⟨extra, hex, hall⟩ := hrec.2.2
          refine ⟨hrec.1.trans hstep.1, hrec.2.1.trans hstep.2.1,
            p :: extra, ?_, ?_⟩
          · rw [hex, hp]; simp
          · intro q hq
            cases hq with
            | head => exact ⟨hte, hseq⟩
            | tail _ hq₂ =>
                have := hall q hq₂
                rw [hstep.2.1] at this
                exact this
  | Event.Timestamp t :: rest => simp [TraceBuilder.process_events] at h
  | Event.Bool v :: rest => simp [TraceBuilder.process_events] at h
  | Event.U64 v :: rest => simp [TraceBuilder.process_events] at h
  | Event.I64 v :: rest => simp [TraceBuilder.process_events] at h
  | Event.F64 v :: rest => simp [TraceBuilder.process_events] at h
  | Event.String s :: rest => simp [TraceBuilder.process_events] at h
  | Event.StrPart bytes :: rest => simp [TraceBuilder.process_events] at h
  | Event.StrEnd len bytes :: rest =>
      simp [TraceBuilder.process_events] at h
termination_by events.length
decreasing_by
  · have := emit_track_event_shrinks b si TrackEventType.SliceBegin rest tu
      b₁ rest₁ he
    simp only [List.length_cons]
    omega
  · have := emit_track_event_shrinks b si TrackEventType.SliceEnd rest tu
      b₁ rest₁ he
    simp only [List.length_cons]
    omega

/-- The thread track-descriptor packet emitted by TraceBuilder::thread_uuid
for an unseen thread id, after stamping by add_packet. -/
def thread_descriptor_packet (seqId uuid : Nat) (th : ThreadTraceData) :
    TracePacket :=
  { TracePacket.default with
      data := some (PacketData.TrackDescriptor
        { TrackDescriptor.default with
            uuid := some uuid,
            thread := some
              { pid := some th.pid, tid := some th.tid,
                thread_name := th.thread_name } }),
      optional_trusted_packet_sequence_id := some seqId }

theorem thread_uuid_hit (b : TraceBuilder) (th : ThreadTraceData)
    (u uuid : Nat) (h : alookup th.tid b.thread_uuids = some uuid) :
    b.thread_uuid th u = (uuid, b) := by
  unfold TraceBuilder.thread_uuid
  rw [h]

theorem thread_uuid_miss (b : TraceBuilder) (th : ThreadTraceData) (u : Nat)
    (h : alookup th.tid b.thread_uuids = none) :
    b.thread_uuid th u =
      (u, { b with
        trace := b.trace ++ [thread_descriptor_packet b.sequence_id u th],
        thread_uuids := b.thread_uuids ++ [(th.tid, u)] }) := by
  unfold TraceBuilder.thread_uuid
  rw [h]
  simp [TraceBuilder.add_packet, thread_descriptor_packet]

theorem alookup_append {α β : Type} [DecidableEq α] (k : α)
    (l₁ l₂ : List (α × β)) :
    alookup k (l₁ ++ l₂) =
      match alookup k l₁ with
      | some v => some v
      | none => alookup k l₂ := by
  induction l₁ with
  | nil => simp [alookup]
  | cons p t ih =>
      obtain ⟨k₁, v₁⟩ := p
      by_cases hk : k = k₁
      · simp [alookup, hk]
      · simp [alookup, hk, ih]

theorem drop_length_append {α : Type} (l₁ l₂ : List α) :
    (l₁ ++ l₂).drop l₁.length = l₂ := by
  induction l₁ with
  | nil => simp
  | cons a t ih => simp [ih]

/-- Claim C10: processing a capture with an empty event sequence and an unseen
thread id emits exactly one packet, the thread track descriptor (emitted
unconditionally before the event walk), and no track-event packets: the
resulting builder differs from the input only by that one appended descriptor
packet and the new thread-uuid mapping. -/
theorem claim_C10_empty_capture_emits_descriptor (b : TraceBuilder)
    (th : ThreadTraceData) (u : Nat)
    (hfresh : alookup th.tid b.thread_uuids = none)
    (hempty : th.events = []) :
    b.process_thread_data th u =
      some { b with
        trace := b.trace ++ [thread_descriptor_packet b.sequence_id u th],
        thread_uuids := b.thread_uuids ++ [(th.tid, u)] } ∧
    (thread_descriptor_packet b.sequence_id u th).data =
      some (PacketData.TrackDescriptor
        { TrackDescriptor.default with
            uuid := some u,
            thread := some
              { pid := some th.pid, tid := some th.tid,
                thread_name := th.thread_name } }) := by
  constructor
  · unfold TraceBuilder.process_thread_data
    rw [thread_uuid_miss b th u hfresh]
    dsimp only
    rw [hempty]
    rw [TraceBuilder.process_events]
  · rfl

/-- Witness for claim C10 on a concrete builder and capture. -/
theorem claim_C10_empty_capture_emits_descriptor_witness :
    alookup (3 : Int)
        (TraceBuilder.mk [] none [] [] [] [] 7).thread_uuids = none ∧
    (TraceBuilder.mk [] none [] [] [] [] 7).process_thread_data
        ⟨[], 2, 3, some "main"⟩ 9 =
      some { TraceBuilder.mk [] none [] [] [] [] 7 with
        trace := [] ++ [thread_descriptor_packet 7 9 ⟨[], 2, 3, some "main"⟩],
        thread_uuids := [] ++ [((3 : Int), 9)] } := by
  refine ⟨rfl, ?_⟩
  exact (claim_C10_empty_capture_emits_descriptor
    (TraceBuilder.mk [] none [] [] [] [] 7) ⟨[], 2, 3, some "main"⟩ 9
    rfl rfl).1

/-- True exactly on packets that are thread track descriptors for the given
thread id. -/
def is_thread_descriptor_for (tid : Int) (p : TracePacket) : Bool :=
  match p.data with
  | some (PacketData.TrackDescriptor td) =>
      match td.thread with
      | some th => th.tid == some tid
      | none => false
  | _ => false

/-- Claim C4: two process_thread_data calls whose captures share a thread id
unseen before the first call emit exactly one thread track-descriptor packet
for that id across both calls (the first call mints the uuid and emits it, the
second reuses the stored uuid), and every track-event packet appended by
either call is attached to the minted uuid of the first call. -/
theorem claim_C4_descriptor_idempotent (b b₁ b₂ : TraceBuilder)
    (c₁ c₂ : ThreadTraceData) (u₁ u₂ : Nat)
    (htid : c₂.tid = c₁.tid)
    (hfresh : alookup c₁.tid b.thread_uuids = none)
    (h₁ : b.process_thread_data c₁ u₁ = some b₁)
    (h₂ : b₁.process_thread_data c₂ u₂ = some b₂) :
    ((b₂.trace.drop b.trace.length).filter
        (is_thread_descriptor_for c₁.tid)).length = 1 ∧
    ∀ p ∈ b₂.trace.drop b.trace.length, ∀ te : TrackEvent,
      p.data = some (PacketData.TrackEvent te) →
        te.track_uuid = some u₁ := by
  unfold TraceBuilder.process_thread_data at h₁ h₂
  rw [thread_uuid_miss b c₁ u₁ hfresh] at h₁
  dsimp only at h₁
  have hs₁ := process_events_spec _ c₁.events u₁ b₁ h₁
  obtain ⟨extra₁, hex₁, hall₁⟩ := hs₁.2.2
  have hlk : alookup c₂.tid b₁.thread_uuids = some u₁ := by
    rw [hs₁.1]
    dsimp only
    rw [htid, alookup_append, hfresh]
    simp [alookup]
  rw [thread_uuid_hit b₁ c₂ u₂ u₁ hlk] at h₂
  dsimp only at h₂
  have hs₂ := process_events_spec b₁ c₂.events u₁ b₂ h₂
  obtain ⟨extra₂, hex₂, hall₂⟩ := hs₂.2.2
  have hseq₁ : b₁.sequence_id = b.sequence_id := hs₁.2.1
  have htr : b₂.trace = b.trace ++
      (thread_descriptor_packet b.sequence_id u₁ c₁ :: (extra₁ ++ extra₂)) := by
    rw [hex₂, hex₁]
    dsimp only
    simp
  have hdrop : b₂.trace.drop b.trace.length =
      thread_descriptor_packet b.sequence_id u₁ c₁ :: (extra₁ ++ extra₂) := by
    rw [htr, drop_length_append]
  constructor
  · rw [hdrop]
    have hD : is_thread_descriptor_for c₁.tid
        (thread_descriptor_packet b.sequence_id u₁ c₁) = true := by
      simp [is_thread_descriptor_for, thread_descriptor_packet,
        TracePacket.default, TrackDescriptor.default]
    have hnone : (extra₁ ++ extra₂).filter
        (is_thread_descriptor_for c₁.tid) = [] := by
      rw [List.filter_eq_nil_iff]
      intro p hp
      rcases List.mem_append.mp hp with hp₁ | hp₂
      · obtain ⟨te, hte, _⟩ := (hall₁ p hp₁).1
        simp [is_thread_descriptor_for, hte]
      · obtain ⟨te, hte, _⟩ := (hall₂ p hp₂).1
        simp [is_thread_descriptor_for, hte]
    simp [List.filter_cons, hD, hnone]
  · intro p hp te hdata
    rw [hdrop] at hp
    cases hp with
    | head =>
        simp [thread_descriptor_packet, TracePacket.default] at hdata
    | tail _ hp₂ =>
        rcases List.mem_append.mp hp₂ with hp₃ | hp₄
        · obtain ⟨te₂, hte₂, huu⟩ := (hall₁ p hp₃).1
          rw [hdata] at hte₂
          simp only [Option.some.injEq, PacketData.TrackEvent.injEq] at hte₂
          rw [hte₂]
          exact huu
        · obtain ⟨te₂, hte₂, huu⟩ := (hall₂ p hp₄).1
          rw [hdata] at hte₂
          simp only [Option.some.injEq, PacketData.TrackEvent.injEq] at hte₂
          rw [hte₂]
          exact huu

/-- Witness for claim C4 on a concrete builder and two captures sharing thread
id 3. -/
theorem claim_C4_descriptor_idempotent_witness :
    ((3 : Int) = (3 : Int)) ∧
    (((TraceBuilder.mk
          [thread_descriptor_packet 7 9 ⟨[], 2, 3, none⟩]
          none [] [] [] [((3 : Int), 9)] 7).trace.drop
        (TraceBuilder.mk [] none [] [] [] [] 7).trace.length).filter
      (is_thread_descriptor_for 3)).length = 1 := by
  refine ⟨rfl, ?_⟩
  have h₁ : (TraceBuilder.mk [] none [] [] [] [] 7).process_thread_data
      ⟨[], 2, 3, none⟩ 9 =
      some (TraceBuilder.mk [thread_descriptor_packet 7 9 ⟨[], 2, 3, none⟩]
        none [] [] [] [((3 : Int), 9)] 7) := by
    unfold TraceBuilder.process_thread_data
    rw [thread_uuid_miss (TraceBuilder.mk [] none [] [] [] [] 7)
      ⟨[], 2, 3, none⟩ 9 (by rfl)]
    dsimp only
    rw [TraceBuilder.process_events]
    rfl
  have h₂ : (TraceBuilder.mk [thread_descriptor_packet 7 9 ⟨[], 2, 3, none⟩]
        none [] [] [] [((3 : Int), 9)] 7).process_thread_data
      ⟨[], 2, 3, none⟩ 11 =
      some (TraceBuilder.mk [thread_descriptor_packet 7 9 ⟨[], 2, 3, none⟩]
        none [] [] [] [((3 : Int), 9)] 7) := by
    unfold TraceBuilder.process_thread_data
    rw [thread_uuid_hit
      (TraceBuilder.mk [thread_descriptor_packet 7 9 ⟨[], 2, 3, none⟩]
        none [] [] [] [((3 : Int), 9)] 7)
      ⟨[], 2, 3, none⟩ 11 9 (by rfl)]
    dsimp only
    rw [TraceBuilder.process_events]
  have h := claim_C4_descriptor_idempotent
    (TraceBuilder.mk [] none [] [] [] [] 7)
    (TraceBuilder.mk [thread_descriptor_packet 7 9 ⟨[], 2, 3, none⟩]
      none [] [] [] [((3 : Int), 9)] 7)
    (TraceBuilder.mk [thread_descriptor_packet 7 9 ⟨[], 2, 3, none⟩]
      none [] [] [] [((3 : Int), 9)] 7)
    ⟨[], 2, 3, none⟩ ⟨[], 2, 3, none⟩ 9 11 rfl rfl h₁ h₂
  exact h.1

/-- Claim C7: construction returns the not-activated error value exactly when
the global enable flag is false at the call (under the reachability invariant
that the flag can only have been set true on a build with the feature compiled
in), and on success the output is exactly one initial packet whose sequence
flags declare previously seen interned and incremental state cleared, stamped
with the drawn sequence identifier. -/
theorem claim_C7_construction (featureEnable runtimeEnabled : Bool)
    (seqId : Nat) (hreach : runtimeEnabled = true → featureEnable = true) :
    ((∃ e, TraceBuilder.new featureEnable runtimeEnabled seqId =
        Except.error e) ↔ runtimeEnabled = false) ∧
    ∀ b, TraceBuilder.new featureEnable runtimeEnabled seqId = Except.ok b →
      b.trace = [{ TracePacket.default with
        sequence_flags := some SEQ_INCREMENTAL_STATE_CLEARED,
        optional_trusted_packet_sequence_id := some seqId }] := by
  cases runtimeEnabled with
  | false =>
      cases featureEnable with
      | false =>
          refine ⟨⟨fun _ => rfl, fun _ => ⟨TracingDisabled.mk, rfl⟩⟩, ?_⟩
          intro b hb
          exact Except.noConfusion hb
      | true =>
          refine ⟨⟨fun _ => rfl, fun _ => ⟨TracingDisabled.mk, rfl⟩⟩, ?_⟩
          intro b hb
          exact Except.noConfusion hb
  | true =>
      have hf := hreach rfl
      subst hf
      have hok : TraceBuilder.new true true seqId = Except.ok
          ((TraceBuilder.mk [] none [] [] [] [] seqId).add_packet
            { TracePacket.default with
                sequence_flags := some SEQ_INCREMENTAL_STATE_CLEARED }) := rfl
      constructor
      · constructor
        · rintro ⟨e, he⟩
          rw [hok] at he
          exact Except.noConfusion he
        · intro hfalse
          cases hfalse
      · intro b hb
        rw [hok] at hb
        cases hb
        rfl

/-- Witness for claim C7 on an enabled build with sequence id 5. -/
theorem claim_C7_construction_witness :
    ((true : Bool) = true → (true : Bool) = true) ∧
    ∀ b, TraceBuilder.new true true 5 = Except.ok b →
      b.trace = [{ TracePacket.default with
        sequence_flags := some SEQ_INCREMENTAL_STATE_CLEARED,
        optional_trusted_packet_sequence_id := some 5 }] :=
  ⟨fun h => h, (claim_C7_construction true true 5 (fun h => h)).2⟩

/-- The builder operations of the public mutating interface, together with
the nondeterministic rng draws they consume. -/
inductive BuilderOp where
  | processThread (thread : ThreadTraceData) (freshUuid : Nat)
  | createCounter (name : String) (unit : CounterUnit)
      (unit_multiplier : Int) (is_incremental : Bool) (freshUuid : Nat)
  | recordI64 (counter : CounterTrack) (timestamp : Nat) (value : Int)
  | recordF64 (counter : CounterTrack) (timestamp : Nat) (bits : Nat)

/-- Run one builder operation (none models a fatal internal error). -/
def applyOp (b : TraceBuilder) : BuilderOp → Option TraceBuilder
  | BuilderOp.processThread th u => b.process_thread_data th u
  | BuilderOp.createCounter n unit m i u =>
      some (b.create_counter_track n unit m i u).2
  | BuilderOp.recordI64 c ts v => some (b.record_counter_i64 c ts v)
  | BuilderOp.recordF64 c ts v => some (b.record_counter_f64 c ts v)

/-- Run a sequence of builder operations. -/
def applyOps (b : TraceBuilder) : List BuilderOp → Option TraceBuilder
  | [] => some b
  | op :: rest =>
      match applyOp b op with
      | none => none
      | some b₁ => applyOps b₁ rest

/-- Every packet of the output carries the sequence identifier of this
builder. -/
def seq_id_invariant (b : TraceBuilder) : Prop :=
  ∀ p ∈ b.trace,
    p.optional_trusted_packet_sequence_id = some b.sequence_id

theorem add_packet_spec (b : TraceBuilder) (p : TracePacket) :
    (b.add_packet p).sequence_id = b.sequence_id ∧
    ∃ extra, (b.add_packet p).trace = b.trace ++ extra ∧
      ∀ q ∈ extra,
        q.optional_trusted_packet_sequence_id = some b.sequence_id := by
  refine ⟨rfl, [{ p with
    optional_trusted_packet_sequence_id := some b.sequence_id }], rfl, ?_⟩
  intro q hq
  cases hq with
  | head => rfl
  | tail _ h₂ => cases h₂

theorem applyOp_spec (b b' : TraceBuilder) (op : BuilderOp)
    (h : applyOp b op = some b') :
    b'.sequence_id = b.sequence_id ∧
    ∃ extra, b'.trace = b.trace ++ extra ∧
      ∀ p ∈ extra,
        p.optional_trusted_packet_sequence_id = some b.sequence_id := by
  cases op with
  | processThread th u =>
      simp only [applyOp] at h
      unfold TraceBuilder.process_thread_data at h
      cases hlk : alookup th.tid b.thread_uuids with
      | some uuid =>
          rw [thread_uuid_hit b th u uuid hlk] at h
          dsimp only at h
          have hs := process_events_spec b th.events uuid b' h
          obtain ⟨extra, hex, hall⟩ := hs.2.2
          exact ⟨hs.2.1, extra, hex, fun p hp => (hall p hp).2⟩
      | none =>
          rw [thread_uuid_miss b th u hlk] at h
          dsimp only at h
          have hs := process_events_spec _ th.events u b' h
          obtain ⟨extra, hex, hall⟩ := hs.2.2
          refine ⟨hs.2.1,
            thread_descriptor_packet b.sequence_id u th :: extra, ?_, ?_⟩
          · rw [hex]
            dsimp only
            simp
          · intro p hp
            cases hp with
            | head => rfl
            | tail _ hp₂ => exact (hall p hp₂).2
  | createCounter n unit m i u =>
      simp only [applyOp, Option.some.injEq] at h
      rw [← h]
      exact add_packet_spec b _
  | recordI64 c ts v =>
      simp only [applyOp, Option.some.injEq] at h
      rw [← h]
      exact add_packet_spec b _
  | recordF64 c ts v =>
      simp only [applyOp, Option.some.injEq] at h
      rw [← h]
      exact add_packet_spec b _

theorem applyOps_spec (ops : List BuilderOp) (b b' : TraceBuilder)
    (h : applyOps b ops = some b') :
    b'.sequence_id = b.sequence_id ∧
    (seq_id_invariant b → seq_id_invariant b') := by
  induction ops generalizing b with
  | nil =>
      simp only [applyOps, Option.some.injEq] at h
      rw [← h]
      exact ⟨rfl, id⟩
  | cons op rest ih =>
      simp only [applyOps] at h
      cases hop : applyOp b op with
      | none => rw [hop] at h; simp at h
      | some b₁ =>
          rw [hop] at h
          dsimp only at h
          have hstep := applyOp_spec b b₁ op hop
          have hrec := ih b₁ h
          refine ⟨hrec.1.trans hstep.1, fun hinv => ?_⟩
          apply hrec.2
          obtain ⟨extra, hex, hall⟩ := hstep.2
          intro p hp
          rw [hex] at hp
          rw [hstep.1]
          rcases List.mem_append.mp hp with h₁ | h₂
          · exact hinv p h₁
          · exact hall p h₂

/-- Claim C8: every packet appended to the output of a builder (the initial
cleared-state packet and every packet produced by thread captures, counter
track creation or counter recording) carries the single sequence identifier
drawn at construction; the invariant holds after construction and after every
sequence of operations that succeeds. -/
theorem claim_C8_sequence_id_invariant (featureEnable runtimeEnabled : Bool)
    (seqId : Nat) (b₀ b : TraceBuilder) (ops : List BuilderOp)
    (hnew : TraceBuilder.new featureEnable runtimeEnabled seqId =
      Except.ok b₀)
    (happ : applyOps b₀ ops = some b) :
    b.sequence_id = seqId ∧ seq_id_invariant b := by
  unfold TraceBuilder.new at hnew
  by_cases he : is_enabled featureEnable runtimeEnabled
  · rw [if_neg (by simp [he])] at hnew
    simp only [Except.ok.injEq] at hnew
    have hops := applyOps_spec ops b₀ b happ
    have hseq₀ : b₀.sequence_id = seqId := by rw [← hnew]; rfl
    have hinv₀ : seq_id_invariant b₀ := by
      rw [← hnew]
      intro p hp
      cases hp with
      | head => rfl
      | tail _ h₂ => cases h₂
    exact ⟨hops.1.trans hseq₀, hops.2 hinv₀⟩
  · rw [if_pos (by simp [he])] at hnew
    cases hnew

/-- Witness for claim C8 on a concrete enabled construction with an empty
operation list. -/
theorem claim_C8_sequence_id_invariant_witness :
    TraceBuilder.new true true 5 = Except.ok
      (TraceBuilder.mk
        [{ TracePacket.default with
            sequence_flags := some SEQ_INCREMENTAL_STATE_CLEARED,
            optional_trusted_packet_sequence_id := some 5 }]
        none [] [] [] [] 5) ∧
    (TraceBuilder.mk
        [{ TracePacket.default with
            sequence_flags := some SEQ_INCREMENTAL_STATE_CLEARED,
            optional_trusted_packet_sequence_id := some 5 }]
        none [] [] [] [] 5).sequence_id = 5 ∧
    seq_id_invariant
      (TraceBuilder.mk
        [{ TracePacket.default with
            sequence_flags := some SEQ_INCREMENTAL_STATE_CLEARED,
            optional_trusted_packet_sequence_id := some 5 }]
        none [] [] [] [] 5) := by
  refine ⟨rfl, ?_⟩
  exact claim_C8_sequence_id_invariant true true 5 _ _ [] rfl rfl

/-- One counter-value recording call with its payload (the f64 payload is an
uninterpreted bit pattern). -/
inductive CounterRecord where
  | i64 (timestamp : Nat) (value : Int)
  | f64 (timestamp : Nat) (bits : Nat)

/-- Fold a sequence of counter recordings over the builder. -/
def record_counters (b : TraceBuilder) (c : CounterTrack) :
    List CounterRecord → TraceBuilder
  | [] => b
  | CounterRecord.i64 ts v :: rest =>
      record_counters (b.record_counter_i64 c ts v) c rest
  | CounterRecord.f64 ts v :: rest =>
      record_counters (b.record_counter_f64 c ts v) c rest

/-- The counter-value packet emitted by one recording call, after stamping. -/
def counter_value_packet (seqId uuid : Nat) : CounterRecord → TracePacket
  | CounterRecord.i64 ts v =>
      { timestamp := some (get_unix_nanos ts),
        timestamp_clock_id := some CLOCK_ID,
        data := some (PacketData.TrackEvent
          { TrackEvent.default with
              type := some TrackEventType.Counter,
              track_uuid := some uuid,
              counter_value_field :=
                some (CounterValueField.CounterValue v) }),
        interned_data := none, sequence_flags := none,
        optional_trusted_packet_sequence_id := some seqId }
  | CounterRecord.f64 ts v =>
      { timestamp := some (get_unix_nanos ts),
        timestamp_clock_id := some CLOCK_ID,
        data := some (PacketData.TrackEvent
          { TrackEvent.default with
              type := some TrackEventType.Counter,
              track_uuid := some uuid,
              counter_value_field :=
                some (CounterValueField.DoubleCounterValue v) }),
        interned_data := none, sequence_flags := none,
        optional_trusted_packet_sequence_id := some seqId }

/-- The counter track-descriptor packet emitted by create_counter_track,
after stamping. -/
def counter_descriptor_packet (seqId uuid : Nat) (name : String)
    (unit : CounterUnit) (unit_multiplier : Int) (is_incremental : Bool) :
    TracePacket :=
  { TracePacket.default with
      data := some (PacketData.TrackDescriptor
        { uuid := some uuid, parent_uuid := none, process := none,
          thread := none,
          counter := some
            { unit := unit.to_proto_unit,
              unit_name := unit.to_proto_unit_name,
              unit_multiplier := some unit_multiplier,
              is_incremental := some is_incremental },
          static_or_dynamic_name := some name }),
      optional_trusted_packet_sequence_id := some seqId }

theorem record_counters_spec (rs : List CounterRecord) (b : TraceBuilder)
    (c : CounterTrack) :
    (record_counters b c rs).trace =
      b.trace ++ rs.map (counter_value_packet b.sequence_id c.uuid) ∧
    (record_counters b c rs).pending_interned = b.pending_interned ∧
    (record_counters b c rs).sequence_id = b.sequence_id := by
  induction rs generalizing b with
  | nil => simp [record_counters]
  | cons r rest ih =>
      cases r with
      | i64 ts v =>
          have h := ih (b.record_counter_i64 c ts v)
          rw [record_counters]
          refine ⟨?_, h.2.1, h.2.2⟩
          rw [h.1]
          simp [TraceBuilder.record_counter_i64, TraceBuilder.add_packet,
            counter_value_packet]
      | f64 ts v =>
          have h := ih (b.record_counter_f64 c ts v)
          rw [record_counters]
          refine ⟨?_, h.2.1, h.2.2⟩
          rw [h.1]
          simp [TraceBuilder.record_counter_f64, TraceBuilder.add_packet,
            counter_value_packet]

/-- Claim C9: create_counter_track emits exactly one descriptor packet
carrying the uuid, name, unit, unit multiplier and incremental flag and
returns the handle; every subsequent counter recording against that handle
appends exactly one counter-value packet at the caller-supplied timestamp for
the uuid of the handle, so one creation plus n recordings appends exactly
n + 1 packets (101 for 100 recordings); none of these packets carries an
interning batch and the pending interned state is untouched. -/
theorem claim_C9_counter_independence (b : TraceBuilder) (name : String)
    (unit : CounterUnit) (unit_multiplier : Int) (is_incremental : Bool)
    (u : Nat) (rs : List CounterRecord) :
    (record_counters
        (b.create_counter_track name unit unit_multiplier is_incremental u).2
        (b.create_counter_track name unit unit_multiplier is_incremental u).1
        rs).trace =
      b.trace ++
        counter_descriptor_packet b.sequence_id u name unit unit_multiplier
          is_incremental ::
        rs.map (counter_value_packet b.sequence_id u) ∧
    (record_counters
        (b.create_counter_track name unit unit_multiplier is_incremental u).2
        (b.create_counter_track name unit unit_multiplier is_incremental u).1
        rs).pending_interned = b.pending_interned ∧
    (record_counters
        (b.create_counter_track name unit unit_multiplier is_incremental u).2
        (b.create_counter_track name unit unit_multiplier is_incremental u).1
        rs).trace.length = b.trace.length + 1 + rs.length := by
  have h := record_counters_spec rs
    (b.create_counter_track name unit unit_multiplier is_incremental u).2
    (b.create_counter_track name unit unit_multiplier is_incremental u).1
  have htr : (record_counters
      (b.create_counter_track name unit unit_multiplier is_incremental u).2
      (b.create_counter_track name unit unit_multiplier is_incremental u).1
      rs).trace =
      b.trace ++
        counter_descriptor_packet b.sequence_id u name unit unit_multiplier
          is_incremental ::
        rs.map (counter_value_packet b.sequence_id u) := by
    rw [h.1]
    simp [TraceBuilder.create_counter_track, TraceBuilder.add_packet,
      counter_descriptor_packet]
  refine ⟨htr, h.2.1, ?_⟩
  rw [htr]
  simp
  omega

/-- Fold TraceBuilder::name_id over the list of display names in the order
the builder sees them, keeping only the builder state. -/
def intern_names (b : TraceBuilder) : List String → TraceBuilder
  | [] => b
  | n :: rest => intern_names (b.name_id n).2 rest

/-- The accumulated first occurrences, in order of first appearance, of the
names of the second list appended after the accumulator. -/
def first_seen (acc : List String) : List String → List String
  | [] => acc
  | n :: rest => first_seen (if n ∈ acc then acc else acc ++ [n]) rest

/-- The interning table expected over a first-seen list, ids starting at
k + 1. -/
def expected_ids (k : Nat) : List String → List (String × Nat)
  | [] => []
  | n :: rest => (n, k + 1) :: expected_ids (k + 1) rest

/-- The pending display-name registrations expected over a first-seen list. -/
def expected_event_names (k : Nat) : List String → List EventName
  | [] => []
  | n :: rest =>
      { iid := some (k + 1), name := some n } ::
        expected_event_names (k + 1) rest

/-- The display-name registrations currently pending on the builder. -/
def pending_event_names (b : TraceBuilder) : List EventName :=
  (b.pending_interned.getD InternedData.default).event_names

theorem alookup_expected_ids_none (n : String) (k : Nat) (l : List String) :
    alookup n (expected_ids k l) = none ↔ n ∉ l := by
  induction l generalizing k with
  | nil => simp [expected_ids, alookup]
  | cons m rest ih =>
      by_cases h : n = m
      · simp [expected_ids, alookup, h]
      · simp [expected_ids, alookup, h, ih]

theorem expected_ids_append (k : Nat) (l : List String) (n : String) :
    expected_ids k (l ++ [n]) =
      expected_ids k l ++ [(n, k + l.length + 1)] := by
  induction l generalizing k with
  | nil => simp [expected_ids]
  | cons m rest ih =>
      have harith : k + 1 + rest.length + 1 = k + (rest.length + 1) + 1 := by
        omega
      simp only [List.cons_append, List.append_eq, expected_ids, ih,
        List.length_cons, harith]

theorem expected_ids_length (k : Nat) (l : List String) :
    (expected_ids k l).length = l.length := by
  induction l generalizing k with
  | nil => rfl
  | cons m rest ih => simp [expected_ids, ih]

theorem expected_event_names_append (k : Nat) (l : List String) (n : String) :
    expected_event_names k (l ++ [n]) =
      expected_event_names k l ++
        [{ iid := some (k + l.length + 1), name := some n }] := by
  induction l generalizing k with
  | nil => simp [expected_event_names]
  | cons m rest ih =>
      have harith : k + 1 + rest.length + 1 = k + (rest.length + 1) + 1 := by
        omega
      simp only [List.cons_append, List.append_eq, expected_event_names,
        ih, List.length_cons, harith]

theorem name_id_miss_spec (b : TraceBuilder) (n : String)
    (h : alookup n b.name_ids = none) :
    (b.name_id n).2.name_ids =
      b.name_ids ++ [(n, b.name_ids.length + 1)] ∧
    pending_event_names (b.name_id n).2 =
      pending_event_names b ++
        [{ iid := some (b.name_ids.length + 1), name := some n }] := by
  unfold TraceBuilder.name_id
  rw [h]
  exact ⟨rfl, rfl⟩

theorem intern_names_invariant (ns : List String) (acc : List String)
    (b : TraceBuilder)
    (hids : b.name_ids = expected_ids 0 acc)
    (hpend : pending_event_names b = expected_event_names 0 acc) :
    (intern_names b ns).name_ids = expected_ids 0 (first_seen acc ns) ∧
    pending_event_names (intern_names b ns) =
      expected_event_names 0 (first_seen acc ns) := by
  induction ns generalizing acc b with
  | nil => exact ⟨hids, hpend⟩
  | cons n rest ih =>
      rw [intern_names, first_seen]
      by_cases hmem : n ∈ acc
      · rw [if_pos hmem]
        cases hlk : alookup n b.name_ids with
        | none =>
            exfalso
            rw [hids] at hlk
            exact (alookup_expected_ids_none n 0 acc).mp hlk hmem
        | some id =>
            have hb : (b.name_id n).2 = b := by
              unfold TraceBuilder.name_id
              rw [hlk]
            rw [hb]
            exact ih acc b hids hpend
      · rw [if_neg hmem]
        have hlk : alookup n b.name_ids = none := by
          rw [hids]
          exact (alookup_expected_ids_none n 0 acc).mpr hmem
        have hmiss := name_id_miss_spec b n hlk
        apply ih (acc ++ [n])
        · rw [hmiss.1, hids, expected_ids_append, expected_ids_length]
          simp
        · rw [hmiss.2, hpend, hids, expected_event_names_append,
            expected_ids_length]
          simp

theorem first_seen_nodup (ns : List String) (acc : List String)
    (hacc : acc.Nodup) : (first_seen acc ns).Nodup := by
  induction ns generalizing acc with
  | nil => exact hacc
  | cons n rest ih =>
      rw [first_seen]
      by_cases hmem : n ∈ acc
      · rw [if_pos hmem]
        exact ih acc hacc
      · rw [if_neg hmem]
        apply ih
        simp [List.nodup_append, hacc, hmem]

theorem expected_event_names_not_mem (m : String) (e : EventName) :
    ∀ (j : Nat) (l : List String), m ∉ l →
      e ∈ expected_event_names j l → ¬(e.name == some m) = true := by
  intro j l
  induction l generalizing j with
  | nil =>
      intro _ hel
      cases hel
  | cons a t ih =>
      intro hm hel
      cases hel with
      | head =>
          simp only [beq_iff_eq, Option.some.injEq]
          intro hcon
          subst hcon
          exact hm (List.mem_cons_self _ _)
      | tail _ ht₂ =>
          exact ih (j + 1) (fun hmt => hm (List.mem_cons_of_mem a hmt)) ht₂

theorem count_expected_event_names (n : String) (k : Nat) (l : List String)
    (hn : l.Nodup) (hmem : n ∈ l) :
    ((expected_event_names k l).filter
      (fun e => e.name == some n)).length = 1 := by
  induction l generalizing k with
  | nil => cases hmem
  | cons m rest ih =>
      by_cases h : m = n
      · subst h
        have hnot : m ∉ rest := (List.nodup_cons.mp hn).1
        have hz : (expected_event_names (k + 1) rest).filter
            (fun e => e.name == some m) = [] := by
          rw [List.filter_eq_nil_iff]
          intro e he
          exact expected_event_names_not_mem m e (k + 1) rest hnot he
        simp [expected_event_names, List.filter_cons, hz]
      · have hmem₂ : n ∈ rest := by
          cases hmem with
          | head => exact absurd rfl h
          | tail _ ht => exact ht
        have hrec := ih (k + 1) (List.nodup_cons.mp hn).2 hmem₂
        have hne : ¬(({ iid := some (k + 1), name := some m } :
            EventName).name == some n) = true := by
          simp only [beq_iff_eq, Option.some.injEq]
          exact fun hcon => h hcon
        simp [expected_event_names, List.filter_cons, hne, hrec]

/-- Claim C5: starting from a builder with an empty display-name table and no
pending interned batch, interning any sequence of names whose first three
distinct names (in first-seen order) are three given names assigns them the
ids 1, 2 and 3 respectively, however often each is repeated; each of the
three names has exactly one registration entry pending; and for any name the
table already holds, interning it again returns the stored id and leaves the
builder unchanged. -/
theorem claim_C5_sequential_interning (b : TraceBuilder) (ns : List String)
    (n₁ n₂ n₃ : String)
    (hempty : b.name_ids = [])
    (hpend : b.pending_interned = none)
    (h3 : (first_seen [] ns).take 3 = [n₁, n₂, n₃]) :
    alookup n₁ (intern_names b ns).name_ids = some 1 ∧
    alookup n₂ (intern_names b ns).name_ids = some 2 ∧
    alookup n₃ (intern_names b ns).name_ids = some 3 ∧
    ((pending_event_names (intern_names b ns)).filter
      (fun e => e.name == some n₁)).length = 1 ∧
    ((pending_event_names (intern_names b ns)).filter
      (fun e => e.name == some n₂)).length = 1 ∧
    ((pending_event_names (intern_names b ns)).filter
      (fun e => e.name == some n₃)).length = 1 ∧
    ∀ n id, alookup n (intern_names b ns).name_ids = some id →
      (intern_names b ns).name_id n = (id, intern_names b ns) := by
  have hinv := intern_names_invariant ns [] b
    (by rw [hempty]; rfl) (by rw [pending_event_names, hpend]; rfl)
  have hnodup : (first_seen [] ns).Nodup :=
    first_seen_nodup ns [] List.nodup_nil
  obtain ⟨l₄, hl⟩ : ∃ l₄, first_seen [] ns = n₁ :: n₂ :: n₃ :: l₄ := by
    refine ⟨(first_seen [] ns).drop 3, ?_⟩
    conv_lhs => rw [← List.take_append_drop 3 (first_seen [] ns)]
    rw [h3]
    rfl
  rw [hl] at hinv hnodup
  have hne₁₂ : n₁ ≠ n₂ := by
    intro hcon
    rw [hcon] at hnodup
    simp at hnodup
  have hne₁₃ : n₁ ≠ n₃ := by
    intro hcon
    rw [hcon] at hnodup
    simp at hnodup
  have hne₂₃ : n₂ ≠ n₃ := by
    intro hcon
    rw [hcon] at hnodup
    simp at hnodup
  refine ⟨?_, ?_, ?_, ?_, ?_, ?_, ?_⟩
  · rw [hinv.1]
    simp [expected_ids, alookup]
  · rw [hinv.1]
    simp [expected_ids, alookup, hne₁₂.symm]
  · rw [hinv.1]
    simp [expected_ids, alookup, hne₁₃.symm, hne₂₃.symm]
  · rw [hinv.2]
    exact count_expected_event_names n₁ 0 _ hnodup
      (List.mem_cons_self _ _)
  · rw [hinv.2]
    exact count_expected_event_names n₂ 0 _ hnodup
      (List.mem_cons_of_mem _ (List.mem_cons_self _ _))
  · rw [hinv.2]
    exact count_expected_event_names n₃ 0 _ hnodup
      (List.mem_cons_of_mem _ (List.mem_cons_of_mem _
        (List.mem_cons_self _ _)))
  · intro n id hlk
    unfold TraceBuilder.name_id
    rw [hlk]

/-- Witness for claim C5 on the name sequence a, b, a, c, b. -/
theorem claim_C5_sequential_interning_witness :
    (first_seen [] ["a", "b", "a", "c", "b"]).take 3 = ["a", "b", "c"] ∧
    alookup "a" (intern_names (TraceBuilder.mk [] none [] [] [] [] 7)
      ["a", "b", "a", "c", "b"]).name_ids = some 1 ∧
    alookup "b" (intern_names (TraceBuilder.mk [] none [] [] [] [] 7)
      ["a", "b", "a", "c", "b"]).name_ids = some 2 ∧
    alookup "c" (intern_names (TraceBuilder.mk [] none [] [] [] [] 7)
      ["a", "b", "a", "c", "b"]).name_ids = some 3 := by
  have h := claim_C5_sequential_interning
    (TraceBuilder.mk [] none [] [] [] [] 7) ["a", "b", "a", "c", "b"]
    "a" "b" "c" rfl rfl (by rfl)
  exact ⟨by rfl, h.1, h.2.1, h.2.2.1⟩

/-- One chunked-text argument run: zero or more StrPart events terminated by
exactly one StrEnd (spec data-model invariant). -/
inductive ChunkRun : List Event → Prop where
  | strEnd (len : Nat) (bytes : List Byte) :
      ChunkRun [Event.StrEnd len bytes]
  | strPart (bytes : List Byte) (rest : List Event) :
      ChunkRun rest → ChunkRun (Event.StrPart bytes :: rest)

/-- One argument encoding: a single scalar event or a chunk run (spec
data-model invariant). -/
inductive ArgRun : List Event → Prop where
  | bool (b : Bool) : ArgRun [Event.Bool b]
  | u64 (v : Nat) : ArgRun [Event.U64 v]
  | i64 (v : Int) : ArgRun [Event.I64 v]
  | f64 (bits : Nat) : ArgRun [Event.F64 bits]
  | string (s : List Byte) : ArgRun [Event.String s]
  | chunks (evs : List Event) : ChunkRun evs → ArgRun evs

/-- k consecutive argument encodings (spec data-model invariant). -/
inductive ArgsRun : Nat → List Event → Prop where
  | nil : ArgsRun 0 []
  | cons (run rest : List Event) (k : Nat) :
      ArgRun run → ArgsRun k rest → ArgsRun (k + 1) (run ++ rest)

/-- Well-formed thread log, the invariants of the spec data model: a flat
sequence of marker blocks; every marker is immediately followed by exactly
one timestamp; a StartSpan block carries, after its timestamp, exactly as
many argument encodings as its site declares. -/
inductive WFLog : List Event → Prop where
  | nil : WFLog []
  | start (si : SourceInfo) (t : Nat) (args rest : List Event) :
      ArgsRun si.arg_names.length args → WFLog rest →
      WFLog (Event.StartSpan si :: Event.Timestamp t :: (args ++ rest))
  | stop (si : SourceInfo) (t : Nat) (rest : List Event) :
      WFLog rest →
      WFLog (Event.EndSpan si :: Event.Timestamp t :: rest)

theorem chunk_run_decodes (evs : List Event) (h : ChunkRun evs)
    (acc : List Byte) (rest : List Event) :
    ∃ v, merge_str_parts acc (evs ++ rest) = some (v, rest) := by
  induction h generalizing acc with
  | strEnd len bytes => exact ⟨_, rfl⟩
  | strPart bytes r hr ih =>
      obtain ⟨v, hv⟩ := ih (acc ++ bytes)
      exact ⟨v, hv⟩

theorem arg_run_decodes (run : List Event) (h : ArgRun run)
    (rest : List Event) :
    ∃ v, convert_next_arg (run ++ rest) = some (v, rest) := by
  cases h with
  | bool b => exact ⟨_, rfl⟩
  | u64 v => exact ⟨_, rfl⟩
  | i64 v => exact ⟨_, rfl⟩
  | f64 bits => exact ⟨_, rfl⟩
  | string s => exact ⟨_, rfl⟩
  | chunks evs hc =>
      cases hc with
      | strEnd len bytes => exact ⟨_, rfl⟩
      | strPart bytes r hr =>
          obtain ⟨v, hv⟩ := chunk_run_decodes r hr bytes rest
          exact ⟨v, hv⟩

theorem args_run_decodes (k : Nat) (args : List Event) (h : ArgsRun k args)
    (names : List String) (hlen : names.length = k) (b : TraceBuilder)
    (rest : List Event) :
    ∃ annos b', b.convert_args names (args ++ rest) =
      some (annos, b', rest) := by
  induction h generalizing names b with
  | nil =>
      cases names with
      | nil => exact ⟨[], b, rfl⟩
      | cons n ns => simp at hlen
  | cons run rest₂ k₂ har hars ih =>
      cases names with
      | nil => simp at hlen
      | cons n ns =>
          have hlen₂ : ns.length = k₂ := by simpa using hlen
          obtain ⟨v, hv⟩ := arg_run_decodes run har (rest₂ ++ rest)
          rcases hd : b.debug_annotation_name_id n with ⟨nid, b₁⟩
          obtain ⟨annos, b', hb⟩ := ih ns hlen₂ b₁
          refine ⟨{ name_iid := some nid, value := some v } :: annos,
            b', ?_⟩
          have hassoc : (run ++ rest₂) ++ rest = run ++ (rest₂ ++ rest) := by
            simp
          rw [hassoc]
          simp only [TraceBuilder.convert_args, hv, hd]
          rw [hb]

theorem emit_wf_start (b : TraceBuilder) (si : SourceInfo) (t : Nat)
    (args rest : List Event) (tu : Nat)
    (h : ArgsRun si.arg_names.length args) :
    ∃ b', b.emit_track_event si TrackEventType.SliceBegin
        (Event.Timestamp t :: (args ++ rest)) tu = some (b', rest) := by
  simp only [TraceBuilder.emit_track_event]
  rcases hn : b.name_id si.name with ⟨nid, b₁⟩
  rcases hs : b₁.source_location_id si with ⟨slid, b₂⟩
  dsimp only
  by_cases hk : si.arg_names = []
  · have hlen : si.arg_names.length = 0 := by rw [hk]; rfl
    rw [hlen] at h
    have hargs : args = [] := by cases h; rfl
    subst hargs
    rw [if_neg (by simp [hk])]
    exact ⟨_, rfl⟩
  · rw [if_pos ⟨trivial, hk⟩]
    obtain ⟨annos, b₃, hca⟩ :=
      args_run_decodes si.arg_names.length args h si.arg_names rfl b₂ rest
    rw [hca]
    exact ⟨_, rfl⟩

theorem emit_wf_end (b : TraceBuilder) (si : SourceInfo) (t : Nat)
    (rest : List Event) (tu : Nat) :
    ∃ b', b.emit_track_event si TrackEventType.SliceEnd
        (Event.Timestamp t :: rest) tu = some (b', rest) := by
  simp only [TraceBuilder.emit_track_event]
  rcases hn : b.name_id si.name with ⟨nid, b₁⟩
  rcases hs : b₁.source_location_id si with ⟨slid, b₂⟩
  dsimp only
  rw [if_neg (by simp)]
  exact ⟨_, rfl⟩

theorem process_events_wf (events : List Event) (h : WFLog events)
    (b : TraceBuilder) (tu : Nat) :
    ∃ b', b.process_events events tu = some b' := by
  induction h generalizing b with
  | nil => exact ⟨b, by rw [TraceBuilder.process_events]⟩
  | start si t args rest har hrest ih =>
      obtain ⟨b₁, hb₁⟩ := emit_wf_start b si t args rest tu har
      obtain ⟨b', hb'⟩ := ih b₁
      refine ⟨b', ?_⟩
      rw [TraceBuilder.process_events, hb₁]
      exact hb'
  | stop si t rest hrest ih =>
      obtain ⟨b₁, hb₁⟩ := emit_wf_end b si t rest tu
      obtain ⟨b', hb'⟩ := ih b₁
      refine ⟨b', ?_⟩
      rw [TraceBuilder.process_events, hb₁]
      exact hb'

theorem process_thread_data_none (b : TraceBuilder) (th : ThreadTraceData)
    (u : Nat)
    (h : ∀ (b' : TraceBuilder) (tu : Nat),
      b'.process_events th.events tu = none) :
    b.process_thread_data th u = none := by
  unfold TraceBuilder.process_thread_data
  exact h _ _

/-- Claim C6: process_thread_data has no typed-error channel; every capture
whose events satisfy the well-formedness invariants is processed without
reaching a fatal internal-consistency violation (some result), while each of
the four violation classes is fatal (modelled as none): a non-marker event at
the top level, a marker not followed by a timestamp, running out of events
while decoding declared arguments, and a non-continuation event where a text
chunk continuation was expected. -/
theorem claim_C6_internal_consistency :
    (∀ (b : TraceBuilder) (th : ThreadTraceData) (u : Nat),
      WFLog th.events → (b.process_thread_data th u).isSome) ∧
    (∀ (b : TraceBuilder) (u : Nat) (pid tid : Int),
      b.process_thread_data ⟨[Event.Bool true], pid, tid, none⟩ u = none) ∧
    (∀ (b : TraceBuilder) (u : Nat) (pid tid : Int) (si : SourceInfo),
      b.process_thread_data
        ⟨[Event.StartSpan si, Event.Bool true], pid, tid, none⟩ u = none) ∧
    (∀ (b : TraceBuilder) (u : Nat) (pid tid : Int) (si : SourceInfo),
      si.arg_names = ["a"] →
      b.process_thread_data
        ⟨[Event.StartSpan si, Event.Timestamp 0], pid, tid, none⟩ u =
          none) ∧
    (∀ (b : TraceBuilder) (u : Nat) (pid tid : Int) (si : SourceInfo)
      (bytes : List Byte),
      si.arg_names = ["a"] →
      b.process_thread_data
        ⟨[Event.StartSpan si, Event.Timestamp 0, Event.StrPart bytes,
          Event.Bool true], pid, tid, none⟩ u = none) := by
  refine ⟨?_, ?_, ?_, ?_, ?_⟩
  · intro b th u hwf
    unfold TraceBuilder.process_thread_data
    obtain ⟨b', hb'⟩ := process_events_wf th.events hwf
      (b.thread_uuid th u).2 (b.thread_uuid th u).1
    rw [hb']
    rfl
  · intro b u pid tid
    apply process_thread_data_none
    intro b' tu
    dsimp only
    simp [TraceBuilder.process_events]
  · intro b u pid tid si
    apply process_thread_data_none
    intro b' tu
    dsimp only
    have he : b'.emit_track_event si TrackEventType.SliceBegin
        [Event.Bool true] tu = none := by
      simp [TraceBuilder.emit_track_event]
    rw [TraceBuilder.process_events, he]
  · intro b u pid tid si harg
    apply process_thread_data_none
    intro b' tu
    dsimp only
    have he : b'.emit_track_event si TrackEventType.SliceBegin
        [Event.Timestamp 0] tu = none := by
      simp only [TraceBuilder.emit_track_event]
      rcases hn : b'.name_id si.name with ⟨nid, b₁⟩
      rcases hs : b₁.source_location_id si with ⟨slid, b₂⟩
      dsimp only
      rw [if_pos ⟨trivial, by rw [harg]; simp⟩, harg]
      simp [TraceBuilder.convert_args, convert_next_arg]
    rw [TraceBuilder.process_events, he]
  · intro b u pid tid si bytes harg
    apply process_thread_data_none
    intro b' tu
    dsimp only
    have he : b'.emit_track_event si TrackEventType.SliceBegin
        [Event.Timestamp 0, Event.StrPart bytes, Event.Bool true] tu =
          none := by
      simp only [TraceBuilder.emit_track_event]
      rcases hn : b'.name_id si.name with ⟨nid, b₁⟩
      rcases hs : b₁.source_location_id si with ⟨slid, b₂⟩
      dsimp only
      rw [if_pos ⟨trivial, by rw [harg]; simp⟩, harg]
      simp [TraceBuilder.convert_args, convert_next_arg, merge_str_parts]
    rw [TraceBuilder.process_events, he]

/-- Witness for claim C6: a concrete well-formed log (one begin marker, its
timestamp, one end marker, its timestamp) is processed successfully. -/
theorem claim_C6_internal_consistency_witness :
    WFLog [Event.StartSpan ⟨"s", "f", 1, []⟩, Event.Timestamp 0,
      Event.EndSpan ⟨"s", "f", 1, []⟩, Event.Timestamp 1] ∧
    ((TraceBuilder.mk [] none [] [] [] [] 7).process_thread_data
      ⟨[Event.StartSpan ⟨"s", "f", 1, []⟩, Event.Timestamp 0,
        Event.EndSpan ⟨"s", "f", 1, []⟩, Event.Timestamp 1],
       2, 3, none⟩ 9).isSome := by
  have hwf : WFLog [Event.StartSpan ⟨"s", "f", 1, []⟩, Event.Timestamp 0,
      Event.EndSpan ⟨"s", "f", 1, []⟩, Event.Timestamp 1] :=
    WFLog.start ⟨"s", "f", 1, []⟩ 0 []
      [Event.EndSpan ⟨"s", "f", 1, []⟩, Event.Timestamp 1]
      ArgsRun.nil
      (WFLog.stop ⟨"s", "f", 1, []⟩ 1 [] WFLog.nil)
  exact ⟨hwf, claim_C6_internal_consistency.1
    (TraceBuilder.mk [] none [] [] [] [] 7)
    ⟨[Event.StartSpan ⟨"s", "f", 1, []⟩, Event.Timestamp 0,
      Event.EndSpan ⟨"s", "f", 1, []⟩, Event.Timestamp 1], 2, 3, none⟩
    9 hwf⟩

end PerfettoRecorder
